import Mathlib

/-!
# Verification of the strided mutable view (`src/mut_.rs`)

The crate exposes a mutable strided slice `Strided<'a, T>` wrapping a raw
strided primitive (`base::Strided`).  The wrapper methods in `src/mut_.rs`
delegate the arithmetic to the `base` module, which is not part of the
sources given here; the parts of `base` that the wrapper calls are modelled
from the specification (marked `Modelled from the spec:` below).  A view is
characterised by the offset (in elements) of its first element inside the
backing buffer, its element count, and its stride in elements; element `i`
of the view lives at buffer position `off + i * str`.
-/

set_option autoImplicit false

universe u

/-- The strided view.  `off` is the element offset of the first addressed
element inside the backing buffer, `len` the element count, `str` the
stride measured in elements.  Modelled from the spec: the raw primitive
(`base::Strided`) stores `(pointer, length, stride)`; we replace the raw
pointer by the element offset from the start of the original buffer.
The wrapper in `src/mut_.rs` (`Strided::new_raw`) adds no data, so a single
structure models both layers. -/
structure Strided where
  off : Nat
  len : Nat
  str : Nat
deriving DecidableEq

/-- `Strided::new` (src/mut_.rs lines 38-40): wraps a conventional slice of
`m` elements, passing stride `1` to `Base::new`; offset 0, length `m`. -/
def Strided.new (m : Nat) : Strided :=
  ⟨0, m, 1⟩

/-- Buffer position addressed by element `i` of the view: `off + i * str`.
Modelled from the spec: the raw primitive computes element addresses from
`(pointer, stride)`; a mutable reference to element `i` is this address. -/
def Strided.addr (v : Strided) (i : Nat) : Nat :=
  v.off + i * v.str

/-- All buffer positions addressable through the view, in traversal order. -/
def Strided.addrList (v : Strided) : List Nat :=
  (List.range v.len).map v.addr

/-- The values the view addresses in a given backing buffer (`none` when the
address falls outside the buffer). -/
def Strided.elems {α : Type u} (buf : List α) (v : Strided) : List (Option α) :=
  (List.range v.len).map (fun i => buf.get? (v.addr i))

/-- `Strided::substrides2` (src/mut_.rs lines 85-88) delegates to
`base.substrides2()`.  Modelled from the spec: returns two views of stride
`2S`, the first addressing original indices 0,2,4,…, the second 1,3,5,…;
lengths `⌈L/2⌉` and `⌊L/2⌋`. -/
def Strided.substrides2 (v : Strided) : Strided × Strided :=
  (⟨v.off, (v.len + 1) / 2, 2 * v.str⟩, ⟨v.off + v.str, v.len / 2, 2 * v.str⟩)

/-- Child `k` of an `n`-way interleaving.  Modelled from the spec: view `k`
(0-indexed) addresses original indices `k, k+n, k+2n, …` with stride `S*n`
and length `⌈(L−k)/n⌉`. -/
def Strided.substridesChild (v : Strided) (n k : Nat) : Strided :=
  ⟨v.off + k * v.str, (v.len - k + n - 1) / n, n * v.str⟩

/-- The `n` children produced by `substrides(n)`, in emission order. -/
def Strided.substridesList (v : Strided) (n : Nat) : List Strided :=
  (List.range n).map (v.substridesChild n)

/-- State of the `Substrides` iterator (src/mut_.rs lines 194-210, wrapping
`base::Substrides`).  Modelled from the spec: a counter-based generator
over the requested count `n` and the parent view, tracking how many
children were emitted so far. -/
structure Substrides where
  orig : Strided
  n : Nat
  emitted : Nat
deriving DecidableEq

/-- `Strided::substrides` (src/mut_.rs lines 100-105): hands the view to the
iterator; nothing is emitted yet. -/
def Strided.substrides (v : Strided) (n : Nat) : Substrides :=
  ⟨v, n, 0⟩

/-- `Iterator::next` for `Substrides` (src/mut_.rs lines 200-205, delegating
to `base::Substrides::next`).  Modelled from the spec: exactly `n` views are
produced, then every further call reports exhaustion (`none`). -/
def Substrides.next (s : Substrides) : Option (Strided × Substrides) :=
  if s.emitted < s.n then
    some (s.orig.substridesChild s.n s.emitted, ⟨s.orig, s.n, s.emitted + 1⟩)
  else
    none

/-- `Iterator::size_hint` for `Substrides` (src/mut_.rs lines 207-209).
Modelled from the spec: reports `n − emitted-so-far` as an exact count,
lower and upper bound alike. -/
def Substrides.size_hint (s : Substrides) : Nat × Option Nat :=
  (s.n - s.emitted, some (s.n - s.emitted))

/-- Pull at most `fuel` elements out of the iterator, returning the emitted
views in order together with the final iterator state. -/
def Substrides.drain : Nat → Substrides → List Strided × Substrides
  | 0, s => ([], s)
  | fuel + 1, s =>
    match s.next with
    | none => ([], s)
    | some (x, s') =>
      let r := Substrides.drain fuel s'
      (x :: r.1, r.2)

/-- `Strided::slice` (src/mut_.rs lines 140-142).  Modelled from the spec:
restricts to indices `[from, to)`, same stride; fails fatally (modelled as
`none`) iff `from > to` or `to > length`. -/
def Strided.slice (v : Strided) (f t : Nat) : Option Strided :=
  if f ≤ t ∧ t ≤ v.len then some ⟨v.off + f * v.str, t - f, v.str⟩ else none

/-- `Strided::slice_from` (src/mut_.rs lines 150-152): elements from `f` on. -/
def Strided.slice_from (v : Strided) (f : Nat) : Option Strided :=
  v.slice f v.len

/-- `Strided::slice_to` (src/mut_.rs lines 160-162): elements before `t`. -/
def Strided.slice_to (v : Strided) (t : Nat) : Option Strided :=
  v.slice 0 t

/-- `Strided::split_at` (src/mut_.rs lines 173-176) delegates to
`base.split_at(idx)`.  Modelled from the spec: the pieces before and from
`idx`, same stride; fails fatally (modelled as `none`) iff `idx > length`. -/
def Strided.split_at (v : Strided) (idx : Nat) : Option (Strided × Strided) :=
  if idx ≤ v.len then
    some (⟨v.off, idx, v.str⟩, ⟨v.off + idx * v.str, v.len - idx, v.str⟩)
  else
    none

/-- `Strided::get_mut` (src/mut_.rs lines 109-111) delegates to
`base.get_mut(n)`.  Modelled from the spec: a reference (here: the buffer
address) to element `i` when `i < length`, otherwise `none`, never a
failure. -/
def Strided.get_mut (v : Strided) (i : Nat) : Option Nat :=
  if i < v.len then some (v.addr i) else none

/-- `IndexMut::index_mut` (src/mut_.rs lines 180-182):
`self.get_mut(*n).expect(…)`, i.e. the `get_mut` result when present and a
panic otherwise; the panic is modelled as `none`. -/
def Strided.index_mut (v : Strided) (i : Nat) : Option Nat :=
  match v.get_mut i with
  | some r => some r
  | none => none

/-- `Strided::reborrow` (src/mut_.rs lines 72-74): `new_raw(self.base)`, a
field-for-field copy of the view with a shorter lifetime. -/
def Strided.reborrow (v : Strided) : Strided :=
  ⟨v.off, v.len, v.str⟩

/-- Rust integer division: panics (modelled as `none`) when the divisor is
zero, otherwise truncating division. -/
def rustDiv (a b : Nat) : Option Nat :=
  if b = 0 then none else some (a / b)

/-- Byte stride stored by the raw primitive.  Modelled from the spec: the
raw layer keeps the stride `Strided::stride` later divides by
`size_of::<T>()`, i.e. the element stride scaled by the element size. -/
def baseStrideBytes (v : Strided) (sizeT : Nat) : Nat :=
  v.str * sizeT

/-- `Strided::stride` (src/mut_.rs lines 50-52):
`self.base.stride() / mem::size_of::<T>()`, an unguarded division by the
element size, so it panics (modelled as `none`) for zero-sized `T`. -/
def Strided.stride (v : Strided) (sizeT : Nat) : Option Nat :=
  rustDiv (baseStrideBytes v sizeT) sizeT

/-! ### Arithmetic helpers -/

/-- Hermite-style identity: the floors of `(L+j)/n` for `j < n` sum to `L`. -/
theorem sum_range_add_div (n : Nat) (hn : 0 < n) :
    ∀ L : Nat, ∑ j ∈ Finset.range n, (L + j) / n = L := by
  intro L
  induction L with
  | zero =>
    apply Finset.sum_eq_zero
    intro j hj
    have hj' : j < n := Finset.mem_range.mp hj
    simpa using Nat.div_eq_of_lt hj'
  | succ L ih =>
    have h1 := Finset.sum_range_succ' (fun j => (L + j) / n) n
    have h2 := Finset.sum_range_succ (fun j => (L + j) / n) n
    have h3 : ∑ j ∈ Finset.range n, (L + 1 + j) / n
        = ∑ j ∈ Finset.range n, (L + (j + 1)) / n := by
      apply Finset.sum_congr rfl
      intro j _
      have : L + 1 + j = L + (j + 1) := by omega
      rw [this]
    have h4 : (L + n) / n = L / n + 1 := Nat.add_div_right L hn
    have h5 : (∑ j ∈ Finset.range n, (L + (j + 1)) / n) + (L + 0) / n
        = (∑ j ∈ Finset.range n, (L + j) / n) + (L + n) / n := h1.symm.trans h2
    simp only [Nat.add_zero] at h5
    rw [h3]
    omega

/-- Termwise reflection: child `n−1−j`'s length formula equals `(L+j)/n`. -/
theorem child_len_reflect (n L j : Nat) (hj : j < n) :
    (L - (n - 1 - j) + n - 1) / n = (L + j) / n := by
  rcases le_or_lt (n - 1 - j) L with h | h
  · have : L - (n - 1 - j) + n - 1 = L + j := by omega
    rw [this]
  · have h1 : L - (n - 1 - j) + n - 1 = n - 1 := by omega
    have h2 : L + j < n := by omega
    rw [h1, Nat.div_eq_of_lt (by omega), Nat.div_eq_of_lt h2]

/-- The child lengths of an `n`-way split of a length-`L` view sum to `L`. -/
theorem sum_child_len (n L : Nat) (hn : 0 < n) :
    ∑ k ∈ Finset.range n, (L - k + n - 1) / n = L := by
  rw [← Finset.sum_range_reflect]
  rw [Finset.sum_congr rfl (fun j hj => child_len_reflect n L j (Finset.mem_range.mp hj))]
  exact sum_range_add_div n hn L

/-- Bridge between list sums over `List.range` and `Finset.range` sums. -/
theorem list_sum_map_range (f : Nat → Nat) (n : Nat) :
    ((List.range n).map f).sum = ∑ i ∈ Finset.range n, f i := by
  induction n with
  | zero => simp
  | succ n ih => simp [List.range_succ, Finset.sum_range_succ, ih]

/-! ### Structural facts about the split family -/

/-- `substrides2` coincides with the first two children of a 2-way split. -/
theorem substrides2_eq_children (v : Strided) :
    v.substrides2 = (v.substridesChild 2 0, v.substridesChild 2 1) := by
  unfold Strided.substrides2 Strided.substridesChild
  refine Prod.ext ?_ ?_
  · simp
  · simp
    omega

/-- Element `i` of child `k` of an `n`-way split sits at the parent's
element `k + i*n`. -/
theorem child_addr (v : Strided) (n k i : Nat) :
    (v.substridesChild n k).addr i = v.addr (k + i * n) := by
  unfold Strided.substridesChild Strided.addr
  simp
  ring

/-- A valid index of child `k` corresponds to a valid parent index. -/
theorem child_index_lt (v : Strided) {n k i : Nat} (hk : k < n)
    (hi : i < (v.substridesChild n k).len) : k + i * n < v.len := by
  unfold Strided.substridesChild at hi
  simp only at hi
  have hq : i + 1 ≤ (v.len - k + n - 1) / n := hi
  have h1 : (i + 1) * n ≤ ((v.len - k + n - 1) / n) * n :=
    Nat.mul_le_mul_right n hq
  have h2 : ((v.len - k + n - 1) / n) * n ≤ v.len - k + n - 1 :=
    Nat.div_mul_le_self _ n
  have h3 : i * n + n ≤ v.len - k + n - 1 := by
    have : (i + 1) * n = i * n + n := by ring
    omega
  have h4 : i * n + n ≤ v.len - k + n - 1 → k < n → k + i * n < v.len := by
    generalize i * n = m
    omega
  exact h4 h3 hk

/-! ### Claim theorems -/

/-- C1: for a view with stride ≥ 1, the children of `substrides(n)` (and of
`substrides2`, which produces children 0 and 1 of a 2-way split) address
pairwise disjoint underlying positions: child `k` addresses exactly the
parent's indices `k, k+n, k+2n, …`, so no underlying element is addressable
through two distinct children. -/
theorem substrides_children_disjoint (v : Strided) (n k l i j : Nat)
    (hstr : 0 < v.str) (hk : k < n) (hl : l < n) (hne : k ≠ l)
    (hi : i < (v.substridesChild n k).len) (_hj : j < (v.substridesChild n l).len) :
    v.substrides2 = (v.substridesChild 2 0, v.substridesChild 2 1) ∧
    (v.substridesChild n k).addr i = v.addr (k + i * n) ∧
    k + i * n < v.len ∧
    (v.substridesChild n k).addr i ≠ (v.substridesChild n l).addr j := by
  refine ⟨substrides2_eq_children v, child_addr v n k i, child_index_lt v hk hi, ?_⟩
  rw [child_addr, child_addr]
  intro h
  unfold Strided.addr at h
  have h2 : k + i * n = l + j * n := by
    have h3 : (k + i * n) * v.str = (l + j * n) * v.str := by
      have := Nat.add_left_cancel h
      omega
    exact Nat.eq_of_mul_eq_mul_right hstr h3
  have h4 := congrArg (· % n) h2
  simp only [Nat.add_mul_mod_self_right] at h4
  rw [Nat.mod_eq_of_lt hk, Nat.mod_eq_of_lt hl] at h4
  exact hne h4

/-- Witness for C1 on the stride-1 view of length 5, split two ways:
element 0 of child 0 and element 0 of child 1 address distinct positions. -/
theorem substrides_children_disjoint_witness :
    (0 < (Strided.new 5).str ∧ 0 < ((Strided.new 5).substridesChild 2 0).len ∧
      0 < ((Strided.new 5).substridesChild 2 1).len) ∧
    ((Strided.new 5).substridesChild 2 0).addr 0 ≠
      ((Strided.new 5).substridesChild 2 1).addr 0 :=
  ⟨by decide,
    (substrides_children_disjoint (Strided.new 5) 2 0 1 0 0 (by decide) (by decide)
      (by decide) (by decide) (by decide) (by decide)).2.2.2⟩

/-- C2: under `substrides2`, element `i` of the first child is element `2i`
of the parent and element `i` of the second child is element `2i+1`, each a
valid parent index; on the stride-1 view over `[1,2,3,4,5]` the children
address `[1,3,5]` and `[2,4]`. -/
theorem substrides2_index_correspondence (v : Strided) (i : Nat) :
    (i < (v.substrides2).1.len →
      (v.substrides2).1.addr i = v.addr (2 * i) ∧ 2 * i < v.len) ∧
    (i < (v.substrides2).2.len →
      (v.substrides2).2.addr i = v.addr (2 * i + 1) ∧ 2 * i + 1 < v.len) ∧
    Strided.elems ([1, 2, 3, 4, 5] : List Nat) ((Strided.new 5).substrides2).1
      = [some 1, some 3, some 5] ∧
    Strided.elems ([1, 2, 3, 4, 5] : List Nat) ((Strided.new 5).substrides2).2
      = [some 2, some 4] := by
  refine ⟨?_, ?_, by decide, by decide⟩
  · intro hi
    unfold Strided.substrides2 at hi ⊢
    unfold Strided.addr
    dsimp only at hi ⊢
    constructor
    · ring
    · omega
  · intro hi
    unfold Strided.substrides2 at hi ⊢
    unfold Strided.addr
    dsimp only at hi ⊢
    constructor
    · ring
    · omega

/-- Witness for C2: on the stride-1 view of length 5, element 1 of the
first child is element 2 of the parent. -/
theorem substrides2_index_correspondence_witness :
    1 < ((Strided.new 5).substrides2).1.len ∧
    (((Strided.new 5).substrides2).1.addr 1 = (Strided.new 5).addr (2 * 1) ∧
      2 * 1 < (Strided.new 5).len) :=
  ⟨by decide, (substrides2_index_correspondence (Strided.new 5) 1).1 (by decide)⟩

/-- C3: `substrides(n)` with `n ≥ 1` produces exactly `n` views whose
lengths sum to the parent's length, child `k` having length `⌈(L−k)/n⌉`;
splitting length 5 two ways gives lengths `[3, 2]`. -/
theorem substrides_length_conservation (v : Strided) (n : Nat) (hn : 1 ≤ n) :
    (v.substridesList n).length = n ∧
    ((v.substridesList n).map Strided.len).sum = v.len ∧
    (v.substridesList n).map Strided.len
      = (List.range n).map (fun k => (v.len - k) ⌈/⌉ n) ∧
    ((Strided.new 5).substridesList 2).map Strided.len = [3, 2] := by
  refine ⟨by simp [Strided.substridesList], ?_, ?_, by decide⟩
  · rw [Strided.substridesList, List.map_map, list_sum_map_range]
    simp only [Function.comp, Strided.substridesChild]
    exact sum_child_len n v.len (by omega)
  · rw [Strided.substridesList, List.map_map]
    refine List.map_congr_left ?_
    intro k _
    simp only [Function.comp, Strided.substridesChild, Nat.ceilDiv_eq_add_pred_div]

/-- Witness for C3 at length 5 split two ways. -/
theorem substrides_length_conservation_witness :
    1 ≤ 2 ∧
    (((Strided.new 5).substridesList 2).length = 2 ∧
      (((Strided.new 5).substridesList 2).map Strided.len).sum = (Strided.new 5).len ∧
      ((Strided.new 5).substridesList 2).map Strided.len
        = (List.range 2).map (fun k => ((Strided.new 5).len - k) ⌈/⌉ 2) ∧
      ((Strided.new 5).substridesList 2).map Strided.len = [3, 2]) :=
  ⟨by decide, substrides_length_conservation (Strided.new 5) 2 (by decide)⟩

/-- C4: `substrides2`/`substrides` are total — `substrides(n)` yields `n`
views for every view, lengths 0 and 1 included, and `substrides2` always
yields two views covering the whole length — while `slice` succeeds iff
`from ≤ to ∧ to ≤ len` and `split_at` succeeds iff `idx ≤ len` (so
`from = to` and the full range succeed, and every other input panics). -/
theorem bounds_totality (v : Strided) (f t i n : Nat) :
    ((v.slice f t).isSome ↔ (f ≤ t ∧ t ≤ v.len)) ∧
    ((v.split_at i).isSome ↔ i ≤ v.len) ∧
    (v.substridesList n).length = n ∧
    (v.substrides2).1.len + (v.substrides2).2.len = v.len := by
  refine ⟨?_, ?_, by simp [Strided.substridesList], ?_⟩
  · unfold Strided.slice
    by_cases h : f ≤ t ∧ t ≤ v.len <;> simp [h]
  · unfold Strided.split_at
    by_cases h : i ≤ v.len <;> simp [h]
  · unfold Strided.substrides2
    dsimp only
    omega

/-- C5: `split_at idx` returns exactly the pair `(slice_to idx,
slice_from idx)` — same failure condition (`idx > len`), same start, length
and stride in each component. -/
theorem split_at_eq_slices (v : Strided) (idx : Nat) :
    v.split_at idx
      = (v.slice_to idx).bind (fun a => (v.slice_from idx).map (fun b => (a, b))) ∧
    ((v.split_at idx).isSome ↔ idx ≤ v.len) := by
  constructor
  · unfold Strided.split_at Strided.slice_to Strided.slice_from Strided.slice
    by_cases h : idx ≤ v.len <;> simp [h]
  · unfold Strided.split_at
    by_cases h : idx ≤ v.len <;> simp [h]

/-- C6: for `i < len`, `get_mut i` returns the same reference as the
trusted accessor `index_mut i`; for `i ≥ len`, `get_mut i` is `none`
(no panic) while `index_mut i` panics (modelled as `none`). -/
theorem get_index_agreement (v : Strided) (i : Nat) :
    (i < v.len → v.get_mut i = some (v.addr i) ∧ v.index_mut i = v.get_mut i) ∧
    (v.len ≤ i → v.get_mut i = none ∧ v.index_mut i = none) := by
  constructor
  · intro hi
    unfold Strided.index_mut Strided.get_mut
    simp [hi]
  · intro hi
    have h : ¬ i < v.len := by omega
    unfold Strided.index_mut Strided.get_mut
    simp [h]

/-- Witness for C6 on the stride-1 view of length 5, at the in-range index
2 and the out-of-range index 7. -/
theorem get_index_agreement_witness :
    (2 < (Strided.new 5).len ∧ (Strided.new 5).len ≤ 7) ∧
    ((Strided.new 5).get_mut 2 = some ((Strided.new 5).addr 2) ∧
      (Strided.new 5).index_mut 2 = (Strided.new 5).get_mut 2) ∧
    ((Strided.new 5).get_mut 7 = none ∧ (Strided.new 5).index_mut 7 = none) :=
  ⟨by decide, (get_index_agreement (Strided.new 5) 2).1 (by decide),
    (get_index_agreement (Strided.new 5) 7).2 (by decide)⟩

/-- C7 counterexample: for a zero-sized element type (`size_of::<T>() = 0`)
the view built by `new` does not report stride 1 — the `stride` computation
divides by the element size with no guard and panics. -/
theorem new_stride_zst_cex : (Strided.new 5).stride 0 ≠ some 1 := by
  decide

/-- C7 (amended): `new` always succeeds, and for every element type of
nonzero size the resulting view's length is the buffer's element count and
its stride is 1; for a zero-sized element type the `stride` accessor
divides by zero instead. -/
theorem new_len_stride (m sizeT : Nat) (hs : 0 < sizeT) :
    (Strided.new m).len = m ∧ (Strided.new m).stride sizeT = some 1 := by
  refine ⟨rfl, ?_⟩
  have h : ¬ sizeT = 0 := by omega
  simp [Strided.stride, rustDiv, baseStrideBytes, Strided.new, h, Nat.div_self hs]

/-- Witness for the amended C7 with element size 4 and a 5-element buffer. -/
theorem new_len_stride_witness :
    0 < 4 ∧ ((Strided.new 5).len = 5 ∧ (Strided.new 5).stride 4 = some 1) :=
  ⟨by decide, new_len_stride 5 4 (by decide)⟩

/-- C8: `reborrow` returns a view with identical fields — same length,
stride and addressable elements — and, being pure, leaves the original
view's structure untouched for use after the reborrow's life ends. -/
theorem reborrow_transparent (v : Strided) :
    v.reborrow = v ∧ v.reborrow.len = v.len ∧ v.reborrow.str = v.str ∧
    v.reborrow.addrList = v.addrList :=
  ⟨rfl, rfl, rfl, rfl⟩

/-- C10: `stride()` is the unguarded division of the raw layer's stored
(byte) stride by `size_of::<T>()` — defined for every nonzero element size,
where it returns the element stride, and a division by zero (panic,
modelled as `none`) for zero-sized `T`, so it is not total. -/
theorem stride_division_unguarded (v : Strided) (sizeT : Nat) :
    (0 < sizeT → v.stride sizeT = some (baseStrideBytes v sizeT / sizeT) ∧
      baseStrideBytes v sizeT / sizeT = v.str) ∧
    v.stride 0 = none := by
  constructor
  · intro hs
    have h : ¬ sizeT = 0 := by omega
    constructor
    · simp [Strided.stride, rustDiv, h]
    · unfold baseStrideBytes
      exact Nat.mul_div_cancel v.str hs
  · simp [Strided.stride, rustDiv]

/-- Witness for C10 at element size 4. -/
theorem stride_division_unguarded_witness :
    0 < 4 ∧
    (((Strided.new 6).stride 4 = some (baseStrideBytes (Strided.new 6) 4 / 4) ∧
      baseStrideBytes (Strided.new 6) 4 / 4 = (Strided.new 6).str) ∧
      (Strided.new 6).stride 0 = none) :=
  ⟨by decide,
    (stride_division_unguarded (Strided.new 6) 4).1 (by decide),
    (stride_division_unguarded (Strided.new 6) 4).2⟩

/-- Characterisation of `drain`: starting from a state with `emitted`
children already produced, pulling `fuel` times yields the next
`min fuel (n − emitted)` children in order and advances the counter by
that amount. -/
theorem drain_spec (fuel : Nat) :
    ∀ s : Substrides,
      (Substrides.drain fuel s).1
        = (List.range (min fuel (s.n - s.emitted))).map
            (fun j => s.orig.substridesChild s.n (s.emitted + j)) ∧
      (Substrides.drain fuel s).2
        = ⟨s.orig, s.n, s.emitted + min fuel (s.n - s.emitted)⟩ := by
  induction fuel with
  | zero =>
    intro s
    constructor
    · simp [Substrides.drain]
    · simp [Substrides.drain]
  | succ fuel ih =>
    intro s
    unfold Substrides.drain Substrides.next
    by_cases h : s.emitted < s.n
    · simp only [h, if_pos]
      obtain ⟨ih1, ih2⟩ := ih ⟨s.orig, s.n, s.emitted + 1⟩
      have hmin : min (fuel + 1) (s.n - s.emitted)
          = min fuel (s.n - (s.emitted + 1)) + 1 := by omega
      constructor
      · dsimp only
        rw [ih1]
        dsimp only
        rw [hmin, List.range_succ_eq_map, List.map_cons, List.map_map]
        refine congrArg₂ List.cons ?_ ?_
        · rw [Nat.add_zero]
        · refine List.map_congr_left fun a _ => ?_
          simp only [Function.comp]
          have hx : s.emitted + 1 + a = s.emitted + Nat.succ a := by omega
          rw [hx]
      · dsimp only
        rw [ih2]
        dsimp only
        congr 1
        omega
    · simp only [h, if_neg, if_false]
      have hmin : min (fuel + 1) (s.n - s.emitted) = 0 := by omega
      rw [hmin]
      constructor
      · simp
      · simp

/-- C9: pulling from the iterator of `substrides(n)` yields exactly the `n`
children (any fuel `m ≥ n` produces them all), every subsequent `next`
returns `none` (exhausted, not an error), and after `k ≤ n` pulls the size
estimate is exactly `n − k`, as both lower and upper bound. -/
theorem substrides_iterator (v : Strided) (n m k : Nat) (hm : n ≤ m) (hk : k ≤ n) :
    (Substrides.drain m (v.substrides n)).1 = v.substridesList n ∧
    (Substrides.drain m (v.substrides n)).1.length = n ∧
    (Substrides.drain m (v.substrides n)).2.next = none ∧
    (Substrides.drain k (v.substrides n)).2.size_hint = (n - k, some (n - k)) := by
  unfold Strided.substrides
  obtain ⟨hm1, hm2⟩ := drain_spec m ⟨v, n, 0⟩
  obtain ⟨hk1, hk2⟩ := drain_spec k ⟨v, n, 0⟩
  dsimp only at hm1 hm2 hk2
  have hminm : min m (n - 0) = n := by omega
  have hmink : min k (n - 0) = k := by omega
  rw [hminm] at hm1 hm2
  rw [hmink] at hk2
  have hlist : (Substrides.drain m ⟨v, n, 0⟩).1 = v.substridesList n := by
    rw [hm1]
    unfold Strided.substridesList
    exact List.map_congr_left fun a _ => by rw [Nat.zero_add]
  refine ⟨hlist, ?_, ?_, ?_⟩
  · rw [hlist]
    simp [Strided.substridesList]
  · rw [hm2]
    unfold Substrides.next
    dsimp only
    have : ¬ 0 + n < n := by omega
    simp [this]
  · rw [hk2]
    unfold Substrides.size_hint
    dsimp only
    have h1 : n - (0 + k) = n - k := by omega
    rw [h1]

/-- Witness for C9: three-way split of a length-7 view drained with fuel 5,
and the size estimate after one pull. -/
theorem substrides_iterator_witness :
    (3 ≤ 5 ∧ 1 ≤ 3) ∧
    ((Substrides.drain 5 ((Strided.new 7).substrides 3)).1
        = (Strided.new 7).substridesList 3 ∧
      (Substrides.drain 5 ((Strided.new 7).substrides 3)).1.length = 3 ∧
      (Substrides.drain 5 ((Strided.new 7).substrides 3)).2.next = none ∧
      (Substrides.drain 1 ((Strided.new 7).substrides 3)).2.size_hint
        = (3 - 1, some (3 - 1))) :=
  ⟨by decide, substrides_iterator (Strided.new 7) 3 5 1 (by decide) (by decide)⟩
